import Mathlib

/-!
Shallow embedding of the `hp_url_shortener` service (`src/app.py`).

The program keeps a relational table `urls(id, short_url UNIQUE, long_url)`
in PostgreSQL (the Durable Store) and a Redis key/value cache (the Fast
Cache).  `create_short_url` validates that the target URL is non-empty,
draws a 7-character token from letters+digits, inserts the row into the
table, then writes the pair into Redis.  `redirect_to_long_url` reads Redis
first and falls back to a select on the table, backfilling Redis on a hit.

The embedding models the table as a list of rows with the unique constraint
enforced at insert, the cache as an association list together with an
availability flag (Redis calls raise when the connection is down, and the
source wraps none of them in try/except), and the `secrets.choice` stream
as a function from draw index to a natural number.
-/

namespace UrlShortener

/-- One row of the `urls` table: `id` (auto-increment primary key),
`short_url` (the token, unique), `long_url` (the target). -/
structure Record where
  id : Nat
  token : String
  target : String
deriving DecidableEq, Repr

/-- The Durable Store: the `urls` table plus the auto-increment counter. -/
structure DB where
  nextId : Nat
  rows : List Record
deriving DecidableEq, Repr

/-- Full service state: the PostgreSQL table, the Redis contents
(an association list, newest entry first), and whether the Redis
connection is reachable. -/
structure ServerState where
  db : DB
  cache : List (String × String)
  cacheUp : Bool
deriving DecidableEq, Repr

/-- Errors a request can surface.  `invalidInput` is the HTTP 400 on an
empty URL, `storeConflict` is the raw unique-constraint violation raised
by the insert, `cacheUnavailable` is an uncaught Redis connection error,
`notFound` is the HTTP 404. -/
inductive Err where
  | invalidInput
  | storeConflict
  | cacheUnavailable
  | notFound
deriving DecidableEq, Repr

/-- Externally visible write events of a single request, in program order. -/
inductive Event where
  | storeInsert (token : String)
  | cacheWrite (token : String)
deriving DecidableEq, Repr

/-- Does the table already hold a row with this token?  (The unique index
on `short_url` makes the insert fail exactly in this case.) -/
def dbHasToken (db : DB) (token : String) : Bool :=
  db.rows.any (fun r => r.token == token)

/-- `urls.insert().values(short_url=token, long_url=target)`: appends a
fresh row, or fails with the constraint violation when the token exists. -/
def dbInsert (db : DB) (token target : String) : Except Err DB :=
  if dbHasToken db token then .error .storeConflict
  else .ok { nextId := db.nextId + 1,
             rows := db.rows ++ [{ id := db.nextId, token := token, target := target }] }

/-- `urls.select().where(urls.c.short_url == token)` followed by
`fetchone()`. -/
def dbSelect (db : DB) (token : String) : Option Record :=
  db.rows.find? (fun r => r.token == token)

/-- `redis_client.get(token)`: raises when the connection is down,
otherwise returns the value or absence. -/
def cacheGet (s : ServerState) (token : String) : Except Err (Option String) :=
  if s.cacheUp then .ok (s.cache.lookup token) else .error .cacheUnavailable

/-- `redis_client.set(token, target)`: raises when the connection is down,
otherwise records the pair (newest entry shadows older ones). -/
def cacheSet (s : ServerState) (token target : String) : Except Err ServerState :=
  if s.cacheUp then .ok { s with cache := (token, target) :: s.cache }
  else .error .cacheUnavailable

/-- `string.ascii_letters + string.digits`, the 62-character token
alphabet. -/
def ALPHABET : List Char :=
  "abcdefghijklmnopqrstuvwxyzABCDEFGHIJKLMNOPQRSTUVWXYZ0123456789".data

/-- `"".join(secrets.choice(string.ascii_letters + string.digits) for _ in
range(7))`: seven independent draws from the alphabet, the random source
modelled as a stream `rnd` of naturals reduced mod 62. -/
def genToken (rnd : Nat → Nat) : String :=
  String.mk ((List.range 7).map (fun i => ALPHABET.getD (rnd i % 62) 'a'))

/-- Outcome of one `create_short_url` request: the HTTP-level result (the
token on success), the state the shared stores are left in, and the trace
of completed writes in the order the program performed them. -/
structure CreateOut where
  result : Except Err String
  state : ServerState
  trace : List Event
deriving Repr

/-- `create_short_url` (src/app.py lines 82-110): reject an empty URL with
HTTP 400; generate one candidate token; insert it into the table (an
uncaught constraint violation aborts the request — the source has no retry
loop); then write the pair to Redis (also uncaught, so a Redis failure
aborts the request after the row was committed). -/
def create (rnd : Nat → Nat) (longUrl : String) (s : ServerState) : CreateOut :=
  if longUrl = "" then ⟨.error .invalidInput, s, []⟩
  else
    match dbInsert s.db (genToken rnd) longUrl with
    | .error e => ⟨.error e, s, []⟩
    | .ok db2 =>
      match cacheSet { s with db := db2 } (genToken rnd) longUrl with
      | .error e => ⟨.error e, { s with db := db2 }, [.storeInsert (genToken rnd)]⟩
      | .ok s3 => ⟨.ok (genToken rnd), s3, [.storeInsert (genToken rnd), .cacheWrite (genToken rnd)]⟩

/-- Outcome of one `redirect_to_long_url` request: the redirect target or
error, the resulting state, and whether the Durable Store was queried. -/
structure ResolveOut where
  result : Except Err String
  state : ServerState
  storeSelected : Bool
deriving Repr

/-- The PostgreSQL branch of `redirect_to_long_url` (lines 129-139):
select by token; on a row, backfill Redis and redirect; otherwise 404. -/
def resolveStore (token : String) (s : ServerState) : ResolveOut :=
  match dbSelect s.db token with
  | some r =>
    match cacheSet s token r.target with
    | .error e => ⟨.error e, s, true⟩
    | .ok s2 => ⟨.ok r.target, s2, true⟩
  | none => ⟨.error .notFound, s, true⟩

/-- `redirect_to_long_url` (src/app.py lines 113-139): `redis_client.get`
first (uncaught when Redis is down); a truthy cached value (Python
`if long_url:`, so a non-empty string) redirects with no Store access;
otherwise fall through to the Store branch. -/
def resolve (token : String) (s : ServerState) : ResolveOut :=
  match cacheGet s token with
  | .error e => ⟨.error e, s, false⟩
  | .ok (some target) =>
    if target = "" then resolveStore token s else ⟨.ok target, s, false⟩
  | .ok none => resolveStore token s

/-- Eviction of one key by the cache's own memory policy (external to the
program: Redis may drop entries at any time; the table is untouched). -/
def evict (token : String) (s : ServerState) : ServerState :=
  { s with cache := s.cache.filter (fun p => p.1 != token) }

/-- The Redis connection going down or coming back up between requests. -/
def setCacheAvail (b : Bool) (s : ServerState) : ServerState :=
  { s with cacheUp := b }

/-- Fresh deployment: empty table (auto-increment starts at 1), empty
cache, given connectivity. -/
def initState (b : Bool) : ServerState :=
  { db := { nextId := 1, rows := [] }, cache := [], cacheUp := b }

/-- States reachable from a fresh deployment by any interleaving of
requests, cache evictions and cache connectivity changes. -/
inductive Reachable : ServerState → Prop where
  | init : ∀ b, Reachable (initState b)
  | createStep : ∀ rnd longUrl s, Reachable s → Reachable (create rnd longUrl s).state
  | resolveStep : ∀ token s, Reachable s → Reachable (resolve token s).state
  | evictStep : ∀ token s, Reachable s → Reachable (evict token s)
  | availStep : ∀ b s, Reachable s → Reachable (setCacheAvail b s)

/-- The tokens currently in the table, in row order. -/
def dbTokens (db : DB) : List String :=
  db.rows.map (fun r => r.token)

/-- Cache coherence: every value the cache would serve for a key agrees
with the row the table holds for that key. -/
def Coherent (s : ServerState) : Prop :=
  ∀ k v, s.cache.lookup k = some v →
    ∃ r, dbSelect s.db k = some r ∧ r.target = v

/-- The table produced by a successful insert during `create`. -/
def insDB (rnd : Nat → Nat) (longUrl : String) (s : ServerState) : DB :=
  { nextId := s.db.nextId + 1,
    rows := s.db.rows ++ [{ id := s.db.nextId, token := genToken rnd, target := longUrl }] }

/-- A state in which the table already holds the token `"aaaaaaa"` — the
token the generator produces when every draw of the random stream is 0. -/
def conflictState : ServerState :=
  { db := { nextId := 2,
            rows := [{ id := 1, token := "aaaaaaa", target := "http://example.com/a" }] },
    cache := [("aaaaaaa", "http://example.com/a")],
    cacheUp := true }

/-- The state after one successful create on a fresh deployment, followed
by the Redis connection going down. -/
def downState : ServerState :=
  setCacheAvail false (create (fun _ => 0) "http://example.com/a" (initState true)).state

/-- A state whose cache holds an entry for `"tok"`, used to exercise the
cache-hit path of `resolve` on concrete data. -/
def hitState : ServerState :=
  { db := { nextId := 1, rows := [] }, cache := [("tok", "http://t")], cacheUp := true }

lemma cacheSet_ok_shape {s : ServerState} {tk tg : String} {s2 : ServerState}
    (h : cacheSet s tk tg = .ok s2) :
    s.cacheUp = true ∧ s2 = { s with cache := (tk, tg) :: s.cache } := by
  rw [cacheSet] at h
  split at h
  · exact ⟨by assumption, by injection h with h2; exact h2.symm⟩
  · cases h

lemma cacheSet_error_shape {s : ServerState} {tk tg : String} {e : Err}
    (h : cacheSet s tk tg = .error e) :
    s.cacheUp = false ∧ e = .cacheUnavailable := by
  rw [cacheSet] at h
  split at h
  · cases h
  · refine ⟨by simpa using ‹¬ s.cacheUp = true›, by injection h with h2; exact h2.symm⟩

/-- Exhaustive description of the four control paths of `create`. -/
lemma create_cases (rnd : Nat → Nat) (longUrl : String) (s : ServerState) :
    (longUrl = "" ∧ create rnd longUrl s = ⟨.error .invalidInput, s, []⟩) ∨
    (longUrl ≠ "" ∧ dbHasToken s.db (genToken rnd) = true ∧
      create rnd longUrl s = ⟨.error .storeConflict, s, []⟩) ∨
    (longUrl ≠ "" ∧ dbHasToken s.db (genToken rnd) = false ∧ s.cacheUp = false ∧
      create rnd longUrl s =
        ⟨.error .cacheUnavailable, { s with db := insDB rnd longUrl s },
         [.storeInsert (genToken rnd)]⟩) ∨
    (longUrl ≠ "" ∧ dbHasToken s.db (genToken rnd) = false ∧ s.cacheUp = true ∧
      create rnd longUrl s =
        ⟨.ok (genToken rnd),
         { db := insDB rnd longUrl s, cache := (genToken rnd, longUrl) :: s.cache,
           cacheUp := true },
         [.storeInsert (genToken rnd), .cacheWrite (genToken rnd)]⟩) := by
  by_cases hu : longUrl = ""
  · exact Or.inl ⟨hu, by simp [create, hu]⟩
  · cases ht : dbHasToken s.db (genToken rnd) with
    | true =>
      refine Or.inr (Or.inl ⟨hu, rfl, ?_⟩)
      simp [create, hu, dbInsert, ht]
    | false =>
      cases hup : s.cacheUp with
      | false =>
        refine Or.inr (Or.inr (Or.inl ⟨hu, rfl, rfl, ?_⟩))
        simp [create, hu, dbInsert, ht, cacheSet, hup, insDB]
      | true =>
        refine Or.inr (Or.inr (Or.inr ⟨hu, rfl, rfl, ?_⟩))
        simp [create, hu, dbInsert, ht, cacheSet, hup, insDB]

lemma lookup_cons_self (k v : String) (l : List (String × String)) :
    ((k, v) :: l).lookup k = some v := by
  simp [List.lookup]

lemma lookup_cons_ne (k k2 v : String) (l : List (String × String)) (h : k ≠ k2) :
    ((k2, v) :: l).lookup k = l.lookup k := by
  have hb : (k == k2) = false := by simpa using h
  simp [List.lookup, hb]

lemma lookup_filter_self (tk : String) (l : List (String × String)) :
    (l.filter (fun p => p.1 != tk)).lookup tk = none := by
  induction l with
  | nil => rfl
  | cons p l ih =>
    rcases p with ⟨k, v⟩
    by_cases h : k = tk
    · rw [List.filter_cons_of_neg (by simp [h])]
      exact ih
    · rw [List.filter_cons_of_pos (by simp [h])]
      rw [lookup_cons_ne tk k v _ (Ne.symm h)]
      exact ih

lemma lookup_filter_le {tk k v : String} {l : List (String × String)}
    (h : (l.filter (fun p => p.1 != tk)).lookup k = some v) :
    l.lookup k = some v := by
  induction l with
  | nil => simp at h
  | cons p l ih =>
    rcases p with ⟨k2, v2⟩
    by_cases h2 : k2 = tk
    · rw [List.filter_cons_of_neg (by simp [h2])] at h
      have hk : k ≠ k2 := by
        rintro rfl
        rw [h2] at h
        rw [lookup_filter_self] at h
        cases h
      rw [lookup_cons_ne k k2 v2 l hk]
      exact ih h
    · rw [List.filter_cons_of_pos (by simp [h2])] at h
      by_cases hk : k = k2
      · subst hk
        rwa [lookup_cons_self] at h ⊢
      · rw [lookup_cons_ne k k2 v2 _ hk] at h
        rw [lookup_cons_ne k k2 v2 l hk]
        exact ih h

lemma find?_append_left {α : Type} {p : α → Bool} {l₁ : List α} (l₂ : List α) {r : α}
    (h : l₁.find? p = some r) : (l₁ ++ l₂).find? p = some r := by
  induction l₁ with
  | nil => simp at h
  | cons a l ih =>
    rw [List.cons_append]
    cases hp : p a with
    | true =>
      rw [List.find?_cons_of_pos _ hp] at h ⊢
      exact h
    | false =>
      rw [List.find?_cons_of_neg _ (by simp [hp])] at h ⊢
      exact ih h

lemma find?_append_right {α : Type} {p : α → Bool} {l₁ : List α} (l₂ : List α)
    (h : l₁.find? p = none) : (l₁ ++ l₂).find? p = l₂.find? p := by
  induction l₁ with
  | nil => simp
  | cons a l ih =>
    rw [List.cons_append]
    cases hp : p a with
    | true => rw [List.find?_cons_of_pos _ hp] at h; cases h
    | false =>
      rw [List.find?_cons_of_neg _ (by simp [hp])] at h ⊢
      exact ih h

lemma select_none_of_not_hasToken {db : DB} {tk : String}
    (h : dbHasToken db tk = false) : dbSelect db tk = none := by
  rw [dbSelect, List.find?_eq_none]
  intro r hr hbeq
  have : dbHasToken db tk = true := by
    rw [dbHasToken, List.any_eq_true]
    exact ⟨r, hr, hbeq⟩
  rw [this] at h
  cases h

lemma not_mem_tokens_of_not_hasToken {db : DB} {tk : String}
    (h : dbHasToken db tk = false) : tk ∉ dbTokens db := by
  intro hm
  rcases List.mem_map.mp hm with ⟨r, hr, hrt⟩
  have : dbHasToken db tk = true := by
    rw [dbHasToken, List.any_eq_true]
    exact ⟨r, hr, by simp [hrt]⟩
  rw [this] at h
  cases h

lemma select_insDB_new (rnd : Nat → Nat) (longUrl : String) (s : ServerState)
    (h : dbHasToken s.db (genToken rnd) = false) :
    dbSelect (insDB rnd longUrl s) (genToken rnd) =
      some { id := s.db.nextId, token := genToken rnd, target := longUrl } := by
  rw [dbSelect, insDB]
  rw [find?_append_right _ (select_none_of_not_hasToken h)]
  simp [List.find?]

lemma select_insDB_old {rnd : Nat → Nat} {longUrl : String} {s : ServerState}
    {k : String} {r : Record} (h : dbSelect s.db k = some r) :
    dbSelect (insDB rnd longUrl s) k = some r := by
  rw [dbSelect, insDB]
  exact find?_append_left _ h

/-- Exhaustive description of the control paths of `resolve` when the
cache connection is up. -/
lemma resolve_cases_up (token : String) (s : ServerState) (hup : s.cacheUp = true) :
    (∃ v, s.cache.lookup token = some v ∧ v ≠ "" ∧
      resolve token s = ⟨.ok v, s, false⟩) ∨
    ((s.cache.lookup token = none ∨ s.cache.lookup token = some "") ∧
      ((∃ r, dbSelect s.db token = some r ∧
          resolve token s =
            ⟨.ok r.target, { s with cache := (token, r.target) :: s.cache }, true⟩) ∨
        (dbSelect s.db token = none ∧ resolve token s = ⟨.error .notFound, s, true⟩))) := by
  have hstore : (s.cache.lookup token = none ∨ s.cache.lookup token = some "") →
      (∃ r, dbSelect s.db token = some r ∧
          resolve token s =
            ⟨.ok r.target, { s with cache := (token, r.target) :: s.cache }, true⟩) ∨
        (dbSelect s.db token = none ∧ resolve token s = ⟨.error .notFound, s, true⟩) := by
    intro hl
    have hres : resolve token s = resolveStore token s := by
      rcases hl with hl | hl
      · simp [resolve, cacheGet, hup, hl]
      · simp [resolve, cacheGet, hup, hl]
    cases hd : dbSelect s.db token with
    | some r =>
      refine Or.inl ⟨r, rfl, ?_⟩
      rw [hres]
      simp [resolveStore, hd, cacheSet, hup]
    | none =>
      refine Or.inr ⟨rfl, ?_⟩
      rw [hres]
      simp [resolveStore, hd]
  cases hl : s.cache.lookup token with
  | none => exact Or.inr ⟨Or.inl rfl, hstore (Or.inl hl)⟩
  | some v =>
    by_cases hv : v = ""
    · subst hv
      exact Or.inr ⟨Or.inr rfl, hstore (Or.inr hl)⟩
    · refine Or.inl ⟨v, rfl, hv, ?_⟩
      simp [resolve, cacheGet, hup, hl, hv]

lemma resolve_down (token : String) (s : ServerState) (hup : s.cacheUp = false) :
    resolve token s = ⟨.error .cacheUnavailable, s, false⟩ := by
  simp [resolve, cacheGet, hup]

lemma resolveStore_db (token : String) (s : ServerState) :
    (resolveStore token s).state.db = s.db := by
  cases hd : dbSelect s.db token with
  | none => simp [resolveStore, hd]
  | some r =>
    cases hc : cacheSet s token r.target with
    | error e => simp [resolveStore, hd, hc]
    | ok s2 => simp [resolveStore, hd, hc, (cacheSet_ok_shape hc).2]

lemma resolve_db (token : String) (s : ServerState) :
    (resolve token s).state.db = s.db := by
  cases hg : cacheGet s token with
  | error e => simp [resolve, hg]
  | ok o =>
    cases o with
    | some tg =>
      by_cases h : tg = ""
      · simp [resolve, hg, h, resolveStore_db]
      · simp [resolve, hg, h]
    | none => simp [resolve, hg, resolveStore_db]

lemma getD_mem {α : Type} (l : List α) (n : Nat) (d : α) (h : n < l.length) :
    l.getD n d ∈ l := by
  induction l generalizing n with
  | nil => simp at h
  | cons a t ih =>
    cases n with
    | zero => simp
    | succ m =>
      rw [List.getD_cons_succ]
      exact List.mem_cons_of_mem a (ih m (by simpa using h))

lemma tokens_insDB_nodup (rnd : Nat → Nat) (longUrl : String) (s : ServerState)
    (ht : dbHasToken s.db (genToken rnd) = false)
    (ih : (dbTokens s.db).Nodup) : (dbTokens (insDB rnd longUrl s)).Nodup := by
  have hnm := not_mem_tokens_of_not_hasToken ht
  rw [dbTokens] at ih hnm
  rw [dbTokens, insDB]
  simp only [List.map_append, List.map_cons, List.map_nil]
  rw [List.nodup_append]
  refine ⟨ih, List.nodup_singleton _, ?_⟩
  intro a ha hb
  simp only [List.mem_singleton] at hb
  subst hb
  exact hnm ha

lemma reachable_tokens_nodup {s : ServerState} (h : Reachable s) :
    (dbTokens s.db).Nodup := by
  induction h with
  | init b => simp [initState, dbTokens]
  | createStep rnd longUrl s hs ih =>
    rcases create_cases rnd longUrl s with ⟨_, hc⟩ | ⟨_, _, hc⟩ | ⟨_, ht, _, hc⟩ | ⟨_, ht, _, hc⟩
    · rw [hc]; exact ih
    · rw [hc]; exact ih
    · rw [hc]; exact tokens_insDB_nodup rnd longUrl s ht ih
    · rw [hc]; exact tokens_insDB_nodup rnd longUrl s ht ih
  | resolveStep token s hs ih => rw [resolve_db]; exact ih
  | evictStep token s hs ih => exact ih
  | availStep b s hs ih => exact ih

lemma reachable_coherent {s : ServerState} (h : Reachable s) : Coherent s := by
  induction h with
  | init b => intro k v hkv; simp [initState, List.lookup] at hkv
  | createStep rnd longUrl s hs ih =>
    rcases create_cases rnd longUrl s with ⟨_, hc⟩ | ⟨_, _, hc⟩ | ⟨_, ht, _, hc⟩ | ⟨_, ht, _, hc⟩
    · rw [hc]; exact ih
    · rw [hc]; exact ih
    · rw [hc]
      intro k v hkv
      rcases ih k v hkv with ⟨r, hr, hrt⟩
      exact ⟨r, select_insDB_old hr, hrt⟩
    · rw [hc]
      intro k v hkv
      by_cases hk : k = genToken rnd
      · subst hk
        rw [lookup_cons_self] at hkv
        injection hkv with hv
        exact ⟨_, select_insDB_new rnd longUrl s ht, hv⟩
      · rw [lookup_cons_ne _ _ _ _ hk] at hkv
        rcases ih k v hkv with ⟨r, hr, hrt⟩
        exact ⟨r, select_insDB_old hr, hrt⟩
  | resolveStep token s hs ih =>
    by_cases hup : s.cacheUp = true
    · rcases resolve_cases_up token s hup with ⟨v, hl, hv, hres⟩ | ⟨hl, ⟨r, hr, hres⟩ | ⟨hr, hres⟩⟩
      · rw [hres]; exact ih
      · rw [hres]
        intro k v hkv
        by_cases hk : k = token
        · subst hk
          rw [lookup_cons_self] at hkv
          injection hkv with hv
          exact ⟨r, hr, hv⟩
        · rw [lookup_cons_ne _ _ _ _ hk] at hkv
          exact ih k v hkv
      · rw [hres]; exact ih
    · rw [resolve_down token s (by simpa using hup)]
      exact ih
  | evictStep token s hs ih =>
    intro k v hkv
    exact ih k v (lookup_filter_le hkv)
  | availStep b s hs ih =>
    intro k v hkv
    exact ih k v hkv

/-- C1: the spec requires `create` to regenerate and retry on a token
uniqueness violation, failing only after a bounded number of retries and
then as a conflict.  The code has no retry loop: on the very first
collision it lets the raw constraint-violation error escape, performing no
further store write (empty trace) and leaving the state untouched. -/
theorem create_conflict_unretried :
    (create (fun _ => 0) "http://example.com/b" conflictState).result =
      .error .storeConflict ∧
    (create (fun _ => 0) "http://example.com/b" conflictState).state = conflictState ∧
    (create (fun _ => 0) "http://example.com/b" conflictState).trace = [] :=
  ⟨rfl, rfl, rfl⟩

/-- C2: the spec says a Fast Cache outage is never surfaced and both
operations succeed from the Store alone.  In the code neither Redis call
is guarded: with the cache down, `create` aborts with the cache error
(after the row was already committed) and `resolve` aborts with the cache
error even though the Store holds the record. -/
theorem cache_outage_surfaced :
    (create (fun _ => 1) "http://example.com/b" downState).result =
      .error .cacheUnavailable ∧
    dbSelect downState.db "aaaaaaa" =
      some { id := 1, token := "aaaaaaa", target := "http://example.com/a" } ∧
    (resolve "aaaaaaa" downState).result = .error .cacheUnavailable :=
  ⟨rfl, rfl, rfl⟩

/-- C3: whenever `create` returns a token, resolving that token returns
the original target, both against the state `create` left (a cache hit)
and after the cache entry for the token is evicted (served by the Durable
Store). -/
theorem create_resolve_round_trip (rnd : Nat → Nat) (longUrl : String) (s : ServerState)
    (t : String) (h : (create rnd longUrl s).result = .ok t) :
    (resolve t (create rnd longUrl s).state).result = .ok longUrl ∧
    (resolve t (evict t (create rnd longUrl s).state)).result = .ok longUrl := by
  rcases create_cases rnd longUrl s with ⟨_, hc⟩ | ⟨_, _, hc⟩ | ⟨_, _, _, hc⟩ | ⟨hu, ht, hup, hc⟩
  · rw [hc] at h; cases h
  · rw [hc] at h; cases h
  · rw [hc] at h; cases h
  · rw [hc] at h
    have hgt : genToken rnd = t := by simpa using h
    subst hgt
    rw [hc]
    constructor
    · simp [resolve, cacheGet, lookup_cons_self, hu]
    · simp [resolve, evict, cacheGet, lookup_filter_self, resolveStore,
        select_insDB_new rnd longUrl s ht, cacheSet]

theorem create_resolve_round_trip_witness :
    (resolve "aaaaaaa"
        (create (fun _ => 0) "http://example.com/a" (initState true)).state).result =
      .ok "http://example.com/a" ∧
    (resolve "aaaaaaa" (evict "aaaaaaa"
        (create (fun _ => 0) "http://example.com/a" (initState true)).state)).result =
      .ok "http://example.com/a" :=
  create_resolve_round_trip (fun _ => 0) "http://example.com/a" (initState true) "aaaaaaa" rfl

/-- C4: in every reachable state no two rows of the `urls` table share a
token — the unique constraint the insert enforces is an invariant of
every interleaving of requests. -/
theorem store_tokens_unique (s : ServerState) (h : Reachable s) :
    (dbTokens s.db).Nodup :=
  reachable_tokens_nodup h

theorem store_tokens_unique_witness :
    (dbTokens (create (fun _ => 0) "http://example.com/a" (initState true)).state.db).Nodup :=
  store_tokens_unique _
    (Reachable.createStep (fun _ => 0) "http://example.com/a" (initState true)
      (Reachable.init true))

/-- C5: in every reachable state the cache is coherent with the table —
any value the cache serves for a key is the target the table stores for
that key — and consequently resolving a token the table knows either
returns that row's target or fails explicitly, never answering with a
wrong target. -/
theorem resolve_never_wrong (s : ServerState) (h : Reachable s) :
    Coherent s ∧
    ∀ token r, dbSelect s.db token = some r →
      (resolve token s).result = .ok r.target ∨
      ∃ e, (resolve token s).result = .error e := by
  have hc := reachable_coherent h
  refine ⟨hc, ?_⟩
  intro token r hr
  by_cases hup : s.cacheUp = true
  · rcases resolve_cases_up token s hup with ⟨v, hl, hv, hres⟩ | ⟨hl, ⟨r2, hr2, hres⟩ | ⟨hr2, hres⟩⟩
    · rcases hc token v hl with ⟨r3, hr3, hrt⟩
      rw [hr] at hr3
      injection hr3 with hr3
      left
      rw [hres, ← hrt, hr3]
    · left
      rw [hr] at hr2
      injection hr2 with hr2
      rw [hres, hr2]
    · rw [hr] at hr2; cases hr2
  · exact Or.inr ⟨.cacheUnavailable, by rw [resolve_down token s (by simpa using hup)]⟩

theorem resolve_never_wrong_witness :
    (resolve "aaaaaaa" (create (fun _ => 0) "http://example.com/a" (initState true)).state).result =
      .ok ({ id := 1, token := "aaaaaaa", target := "http://example.com/a" } : Record).target ∨
    ∃ e, (resolve "aaaaaaa"
        (create (fun _ => 0) "http://example.com/a" (initState true)).state).result = .error e :=
  (resolve_never_wrong _
    (Reachable.createStep (fun _ => 0) "http://example.com/a" (initState true)
      (Reachable.init true))).2 "aaaaaaa"
    { id := 1, token := "aaaaaaa", target := "http://example.com/a" } rfl

/-- C6: with the cache connection up, `resolve` checks the cache first and
on a hit answers from it, touching neither store state nor the table; on a
miss it selects from the table and, when a row exists, backfills the cache
and answers; when both miss it fails with not-found and caches nothing. -/
theorem resolve_two_tier (token : String) (s : ServerState) (hup : s.cacheUp = true) :
    (∀ v, s.cache.lookup token = some v → v ≠ "" →
        resolve token s = ⟨.ok v, s, false⟩) ∧
    (∀ r, s.cache.lookup token = none → dbSelect s.db token = some r →
        resolve token s =
          ⟨.ok r.target, { s with cache := (token, r.target) :: s.cache }, true⟩) ∧
    (s.cache.lookup token = none → dbSelect s.db token = none →
        resolve token s = ⟨.error .notFound, s, true⟩) := by
  refine ⟨?_, ?_, ?_⟩
  · intro v hl hv
    simp [resolve, cacheGet, hup, hl, hv]
  · intro r hl hr
    simp [resolve, cacheGet, hup, hl, resolveStore, hr, cacheSet]
  · intro hl hr
    simp [resolve, cacheGet, hup, hl, resolveStore, hr]

theorem resolve_two_tier_witness :
    resolve "tok" hitState = ⟨.ok "http://t", hitState, false⟩ :=
  (resolve_two_tier "tok" hitState rfl).1 "http://t" rfl (by decide)

/-- C7: `create` with an empty target fails with the invalid-input error
(HTTP 400), attempts no store write at all, and leaves table and cache
exactly as they were. -/
theorem create_rejects_empty (rnd : Nat → Nat) (s : ServerState) :
    create rnd "" s = ⟨.error .invalidInput, s, []⟩ := by
  simp [create]

/-- C8: every generated token is exactly 7 characters, each from the
62-character alphabet of letters and digits, and any token `create`
returns is the generated one. -/
theorem token_shape (rnd : Nat → Nat) :
    (genToken rnd).length = 7 ∧
    (∀ c ∈ (genToken rnd).data, c ∈ ALPHABET) ∧
    ALPHABET.length = 62 ∧
    (∀ longUrl s t, (create rnd longUrl s).result = .ok t → t = genToken rnd) := by
  have hlen : ALPHABET.length = 62 := rfl
  refine ⟨?_, ?_, hlen, ?_⟩
  · simp [genToken, String.length]
  · intro c hc
    simp only [genToken] at hc
    rcases List.mem_map.mp hc with ⟨i, hi, hfc⟩
    rw [← hfc]
    exact getD_mem _ _ _ (by rw [hlen]; exact Nat.mod_lt _ (by norm_num))
  · intro longUrl s t h
    rcases create_cases rnd longUrl s with ⟨_, hc⟩ | ⟨_, _, hc⟩ | ⟨_, _, _, hc⟩ | ⟨_, _, _, hc⟩ <;>
      rw [hc] at h
    · cases h
    · cases h
    · cases h
    · have h2 : genToken rnd = t := by simpa using h
      exact h2.symm

theorem token_shape_witness :
    (genToken (fun _ => 0)).length = 7 ∧ 'a' ∈ ALPHABET :=
  ⟨(token_shape (fun _ => 0)).1, (token_shape (fun _ => 0)).2.1 'a' (by decide)⟩

/-- C9: in the write trace of any single `create` call, a cache write for
a token only ever appears strictly after the completed store insert for
that same token — a cache entry is never published before durability. -/
theorem create_insert_precedes_cache_write (rnd : Nat → Nat) (longUrl : String)
    (s : ServerState) (i : Nat) (tk : String)
    (h : (create rnd longUrl s).trace.get? i = some (.cacheWrite tk)) :
    ∃ j, j < i ∧ (create rnd longUrl s).trace.get? j = some (.storeInsert tk) := by
  rcases create_cases rnd longUrl s with ⟨_, hc⟩ | ⟨_, _, hc⟩ | ⟨_, _, _, hc⟩ | ⟨_, _, _, hc⟩ <;>
    rw [hc] at h
  · simp at h
  · simp at h
  · cases i with
    | zero => simp at h
    | succ n => simp at h
  · cases i with
    | zero => simp at h
    | succ n =>
      cases n with
      | zero =>
        have h2 : genToken rnd = tk := by simpa using h
        exact ⟨0, Nat.zero_lt_one, by rw [hc]; simp [h2]⟩
      | succ m => simp at h

theorem create_insert_precedes_cache_write_witness :
    (create (fun _ => 0) "http://example.com/a" (initState true)).trace.get? 1 =
      some (.cacheWrite "aaaaaaa") ∧
    ∃ j, j < 1 ∧
      (create (fun _ => 0) "http://example.com/a" (initState true)).trace.get? j =
        some (.storeInsert "aaaaaaa") :=
  ⟨rfl, create_insert_precedes_cache_write (fun _ => 0) "http://example.com/a"
    (initState true) 1 "aaaaaaa" rfl⟩

/-- C10: `resolve` leaves the table exactly as it found it (it only
selects), eviction never touches the table, and `create` only ever appends
rows — existing rows are never mutated or deleted by any operation. -/
theorem resolve_never_writes_store (token : String) (s : ServerState)
    (rnd : Nat → Nat) (longUrl : String) :
    (resolve token s).state.db = s.db ∧
    (evict token s).db = s.db ∧
    ∃ tail, (create rnd longUrl s).state.db.rows = s.db.rows ++ tail := by
  refine ⟨resolve_db token s, rfl, ?_⟩
  rcases create_cases rnd longUrl s with ⟨_, hc⟩ | ⟨_, _, hc⟩ | ⟨_, _, _, hc⟩ | ⟨_, _, _, hc⟩ <;>
    rw [hc]
  · exact ⟨[], by simp⟩
  · exact ⟨[], by simp⟩
  · exact ⟨[{ id := s.db.nextId, token := genToken rnd, target := longUrl }], rfl⟩
  · exact ⟨[{ id := s.db.nextId, token := genToken rnd, target := longUrl }], rfl⟩

end UrlShortener
